import Mathlib

/-!
Verification development for the manifest-templating function pipeline
(`fn.go`).  The Go code is shallowly embedded: Go strings are `List Char`,
Go `int` is `Int`, Go maps are association lists with first-match lookup
and replace-or-append update, fallible or panicking code returns a
`GoCall` value.  Definitions mirror the source functions
`convertToMap`, `safeApplyTemplateOptions`, `moveToNextDoc` and
`getYamlErrorContextFromErr`, together with the small fragments of
`RunFunction` the properties refer to.
-/

set_option maxHeartbeats 1000000

/-- Go strings, embedded as lists of characters. -/
abbrev Str := List Char

/-- Outcome of a Go call: a normal return, or an in-flight panic carrying
the textual form of the recovered value. -/
inductive GoCall (α : Type) where
  | ret (a : α)
  | panicked (msg : Str)
deriving DecidableEq

/-- The whitespace skipped by the `fmt` scanner for a space in a format
string (horizontal space). -/
def isScanSpace (c : Char) : Bool := c == ' ' || c == '\t'

/-- Embeds `unicode.IsSpace` as used by `strings.TrimSpace` (Latin-1
range). -/
def isSpaceChar (c : Char) : Bool :=
  c == ' ' || c == '\t' || c == '\n' || c == '\r' ||
  c.toNat == 11 || c.toNat == 12 || c.toNat == 133 || c.toNat == 160

/-- Embeds `strings.TrimSpace`: drop whitespace from both ends. -/
def trimSpace (s : Str) : Str :=
  ((s.dropWhile isSpaceChar).reverse.dropWhile isSpaceChar).reverse

/-- Decimal digit test, as used by the `%d` verb of the `fmt` scanner. -/
def isDigitChar (c : Char) : Bool := decide (48 ≤ c.toNat) && decide (c.toNat ≤ 57)

/-- Numeric value of a decimal digit character. -/
def digitVal (c : Char) : Nat := c.toNat - 48

/-- The decimal digit character for a value below ten. -/
def digitChar (d : Nat) : Char := Char.ofNat (48 + d)

/-- Fueled digit-emission loop of the decimal renderer (the fuel only
bounds the recursion depth; `natRepr` always supplies enough). -/
def natReprAux (fuel n : Nat) : Str :=
  match fuel with
  | 0 => []
  | fuel2 + 1 =>
    if n < 10 then [digitChar n] else natReprAux fuel2 (n / 10) ++ [digitChar (n % 10)]

/-- Decimal rendering of a natural number, as produced by the `%d` verb of
`fmt.Sprintf`. -/
def natRepr (n : Nat) : Str := natReprAux (n + 1) n

/-- Decimal rendering of a Go `int`, as produced by the `%d` verb of
`fmt.Sprintf`. -/
def intRepr (i : Int) : Str :=
  if i < 0 then '-' :: natRepr i.natAbs else natRepr i.toNat

/-- Accumulating decimal scanner: consume leading digit characters. -/
def parseDigitsAux (acc : Nat) : Str → Nat × Str
  | [] => (acc, [])
  | c :: cs =>
    if isDigitChar c then parseDigitsAux (acc * 10 + digitVal c) cs else (acc, c :: cs)

/-- Scan a nonempty run of decimal digits from the front of a string. -/
def parseNat (s : Str) : Option (Nat × Str) :=
  match s with
  | [] => none
  | c :: _ => if isDigitChar c then some (parseDigitsAux 0 s) else none

/-- Embeds the `%d` verb of the `fmt` scanner after whitespace skipping:
an optional sign followed by a nonempty digit run. -/
def parseInt (s : Str) : Option (Int × Str) :=
  match s with
  | [] => none
  | c :: cs =>
    if c = '-' then (parseNat cs).map (fun p => (-(p.1 : Int), p.2))
    else if c = '+' then (parseNat cs).map (fun p => ((p.1 : Int), p.2))
    else (parseNat (c :: cs)).map (fun p => ((p.1 : Int), p.2))

/-- Embeds matching of the literal portion of a `fmt` scanning format: a
space in the format consumes any run of horizontal whitespace in the
input, any other character must match exactly.  Returns the unconsumed
input on success. -/
def matchFmtLit : Str → Str → Option Str
  | [], s => some s
  | c :: fs, s =>
    if c = ' ' then matchFmtLit fs (s.dropWhile isScanSpace)
    else
      match s with
      | [] => none
      | d :: ds => if d = c then matchFmtLit fs ds else none

/-- A scanning format literal is sane when no space in it is followed by
another horizontal-space character (so the greedy space rule consumes
exactly the input copy of the format). -/
def fmtSane : Str → Bool
  | [] => true
  | c :: fs =>
    (if c = ' ' then (match fs with | [] => true | d :: _ => !isScanSpace d) else true)
      && fmtSane fs

/-- Whether a string starts with a decimal digit. -/
def headDigit : Str → Bool
  | [] => false
  | c :: _ => isDigitChar c

/-- The value accumulated by the decimal scanner over a digit string. -/
def digitsVal (acc : Nat) (ds : Str) : Nat :=
  ds.foldl (fun a c => a * 10 + digitVal c) acc

/-- The literal portion of the scan format of `getYamlErrorContextFromErr`,
up to the `%d` verb. -/
def yamlErrFmtPfx : Str := "error converting YAML to JSON: yaml: line ".toList

/-- Whether a string begins with the literal colon closing the format. -/
def headIsColon : Str → Bool
  | [] => false
  | c :: _ => c == ':'

/-- Embeds `n, scanErr := fmt.Sscanf(err.Error(), "error converting YAML
to JSON: yaml: line %d:", &relLine)` (fn.go line 165): `some relLine`
exactly when `scanErr == nil && n == 1`. -/
def sscanfYamlLine (errStr : Str) : Option Int :=
  match matchFmtLit yamlErrFmtPfx errStr with
  | none => none
  | some rest =>
    match parseInt (rest.dropWhile isScanSpace) with
    | none => none
    | some (n, rest2) => if headIsColon rest2 then some n else none

/-- Embeds `fmt.Sprintf("error converting YAML to JSON: yaml: line %d:",
relLine)` (fn.go line 169). -/
def yamlErrPfx (relLine : Int) : Str := yamlErrFmtPfx ++ intRepr relLine ++ [':']

/-- Embeds `strings.Index`: position of the first occurrence of `pat` in
`s`, `none` when absent (Go returns -1). -/
def indexOf : Str → Str → Option Nat
  | [], pat => if pat.isPrefixOf [] then some 0 else none
  | c :: s2, pat =>
    if pat.isPrefixOf (c :: s2) then some 0 else (indexOf s2 pat).map (· + 1)

/-- Embeds `strings.Contains`: whether `pat` occurs in `s` (in Go,
`Index(s, pat) >= 0`). -/
def goContains (s pat : Str) : Bool := (indexOf s pat).isSome

/-- The diagnostic record of fn.go lines 41-46. -/
structure YamlErrorContext where
  RelLine : Int
  AbsLine : Int
  Message : Str
  Context : Str
deriving DecidableEq

/-- The zero value `YamlErrorContext\x7b\x7d`. -/
def zeroYamlErrorContext : YamlErrorContext := ⟨0, 0, [], []⟩

/-- Embeds `getYamlErrorContextFromErr` (fn.go lines 163-187).  The two
source blocks guarded by `scanErr == nil && n == 1` appear as the two
matches on the scan result; `err.Error()` is the `errStr` argument. -/
def getYamlErrorContextFromErr (errStr : Str) (startLine : Int) (lines : List Str) :
    YamlErrorContext :=
  let scanned := sscanfYamlLine errStr
  let errMsg : Str :=
    match scanned with
    | some relLine =>
      match indexOf errStr (yamlErrPfx relLine) with
      | some idx => trimSpace (errStr.drop (idx + (yamlErrPfx relLine).length))
      | none => []
    | none => []
  match scanned with
  | some relLine =>
    let absLine := startLine + relLine
    if absLine - 1 < (lines.length : Int) ∧ absLine - 1 ≥ 0 then
      ⟨relLine, absLine, errMsg, lines.getD (absLine - 1).toNat []⟩
    else zeroYamlErrorContext
  | none => zeroYamlErrorContext

/-- Embeds Go slice indexing `l[i]`: the element when `0 ≤ i < len l`,
`none` for the runtime bounds-check panic. -/
def goIndex (l : List Str) (i : Int) : Option Str :=
  if 0 ≤ i ∧ i < (l.length : Int) then some (l.getD i.toNat []) else none

/-- The loop of `moveToNextDoc` (fn.go lines 155-159): `i` runs from
`startLine` while `i <= len(lines)`; the body reads `lines[i-1]` (a
bounds-checked access) and returns `i` at the first separator line
strictly past `startLine`. -/
def moveToNextDocLoop (lines : List Str) (startLine i : Int) : GoCall Int :=
  if h : i ≤ (lines.length : Int) then
    match goIndex lines (i - 1) with
    | none => GoCall.panicked ("runtime error: index out of range").toList
    | some line =>
      if trimSpace line = ("---").toList ∧ i > startLine then GoCall.ret i
      else moveToNextDocLoop lines startLine (i + 1)
  else GoCall.ret startLine
termination_by ((lines.length : Int) + 1 - i).toNat
decreasing_by omega

/-- Embeds `moveToNextDoc` (fn.go lines 154-161). -/
def moveToNextDoc (lines : List Str) (startLine : Int) : GoCall Int :=
  moveToNextDocLoop lines startLine startLine

/-- Line `i` (1-based) of `lines` exists and is a document separator after
trimming, i.e. the condition tested by the `moveToNextDoc` loop body. -/
def isSepAt (lines : List Str) (i : Int) : Prop :=
  1 ≤ i ∧ i ≤ (lines.length : Int) ∧ trimSpace (lines.getD (i - 1).toNat []) = ("---").toList

instance (lines : List Str) (i : Int) : Decidable (isSepAt lines i) := by
  unfold isSepAt; infer_instance

/-- First-match lookup in a Go map embedded as an association list. -/
def mapLookup {α : Type} (m : List (String × α)) (k : String) : Option α :=
  match m with
  | [] => none
  | (k2, v) :: rest => if k2 = k then some v else mapLookup rest k

/-- Go map update `m[k] = v`: replace the binding when present, otherwise
add it. -/
def mapInsert {α : Type} (m : List (String × α)) (k : String) (v : α) : List (String × α) :=
  match m with
  | [] => [(k, v)]
  | (k2, v2) :: rest => if k2 = k then (k2, v) :: rest else (k2, v2) :: mapInsert rest k v

/-- Embeds the back-compatibility step of `convertToMap` (fn.go lines
132-138); the proto-to-JSON round trip producing `mReq` is external
serialization, so the function acts on the already-unmarshalled generic
map. -/
def convertToMap {α : Type} (mReq : List (String × α)) : List (String × α) :=
  match mapLookup mReq "extraResources" with
  | some _ => mReq
  | none =>
    match mapLookup mReq "requiredResources" with
    | some r => mapInsert mReq "extraResources" r
    | none => mReq

/-- Embeds `safeApplyTemplateOptions` (fn.go lines 143-152).  The
behavior of the underlying `text/template` `Option` call — which panics
on an unknown or malformed option name — is abstracted as its outcome
`optionCall`; the deferred `recover` block turns an in-flight panic into
a normal error return (`some` message), and a normal return into `nil`
(`none`). -/
def safeApplyTemplateOptions (optionCall : GoCall Unit) : GoCall (Option Str) :=
  match optionCall with
  | GoCall.ret _ => GoCall.ret none
  | GoCall.panicked v =>
    GoCall.ret (some (("panic occurred while applying template options: ").toList ++ v))

/-- Embeds the option-applying fragment of `RunFunction` (fn.go lines
81-88): a `nil` error continues the pipeline (`ret none`), a non-`nil`
error becomes the fatal condition `cannot apply template options: ...`
(`ret (some message)`); a panic escaping `safeApplyTemplateOptions`
would crash `RunFunction` (`panicked`). -/
def runFunctionApplyOptions (optionCall : GoCall Unit) : GoCall (Option Str) :=
  match safeApplyTemplateOptions optionCall with
  | GoCall.ret none => GoCall.ret none
  | GoCall.ret (some e) =>
    GoCall.ret (some (("cannot apply template options: ").toList ++ e))
  | GoCall.panicked v => GoCall.panicked v

/-- Embeds the decode-failure branch of `RunFunction` (fn.go lines
111-114): the fatal condition is `errors.Wrap(err, "cannot decode
manifest")`, whose message is the context string, a colon-space, and the
wrapped error — and nothing else. -/
def decodeFailureFatalMessage (decodeErr : Str) : Str :=
  ("cannot decode manifest: ").toList ++ decodeErr

/-- fn.go line 49. -/
def annotationKeyCompositionResourceName : String :=
  "gotemplating.fn.crossplane.io/composition-resource-name"

/-- fn.go line 50. -/
def annotationKeyReady : String := "gotemplating.fn.crossplane.io/ready"

/-- The tri-state readiness indicator of a desired resource. -/
inductive Readiness where
  | unspecified
  | ready
  | notReady
deriving DecidableEq

/-- A recorded desired resource: identity, readiness, and the annotation
map of its emitted body. -/
structure DesiredResource where
  name : String
  readiness : Readiness
  annotations : List (String × String)
deriving DecidableEq

/-- Modelled from the spec: the per-document recording step of the
Document Decoder (spec §4.4 and §3), whose implementation is not in
fn.go — `RunFunction` only wires the decoder into the response.  For a
successfully decoded document: read the two controlling annotations when
present, determine the recorded identity (override annotation, else the
surrounding protocol's default) and the readiness flag (`True` means
ready, `False` means not ready, else the default "not yet determined"),
and strip both annotation keys from the emitted body. -/
def recordDecodedDoc (defaultName : String) (anns : List (String × String)) :
    DesiredResource :=
  let name := (mapLookup anns annotationKeyCompositionResourceName).getD defaultName
  let rd :=
    match mapLookup anns annotationKeyReady with
    | some v =>
      if v = "True" then Readiness.ready
      else if v = "False" then Readiness.notReady
      else Readiness.unspecified
    | none => Readiness.unspecified
  let stripped := anns.filter
    (fun kv => !(kv.1 == annotationKeyCompositionResourceName || kv.1 == annotationKeyReady))
  ⟨name, rd, stripped⟩

/-- The canonical textual form of the structured parser's decode error:
the fixed phrase, a relative line number, a colon, and a message tail. -/
def mkYamlErr (n : Nat) (msg : Str) : Str := yamlErrFmtPfx ++ (natRepr n ++ ':' :: msg)

/-- The three lines of the rendered text `"a: 1\n---\nb: [1,2\n"`. -/
def lines6 : List Str := [("a: 1").toList, ("---").toList, ("b: [1,2").toList]

/-- A concrete decode error for the second document of `lines6`. -/
def sampleDecodeErr : Str :=
  ("error converting YAML to JSON: yaml: line 1: did not find expected key").toList

/-! ## Character and digit facts -/

theorem isDigitChar_toNat (c : Char) (h : isDigitChar c = true) :
    48 ≤ c.toNat ∧ c.toNat ≤ 57 := by
  simpa [isDigitChar] using h

theorem digit_char_facts (c : Char) (h : isDigitChar c = true) :
    c ≠ '-' ∧ c ≠ '+' ∧ isScanSpace c = false := by
  have hb := isDigitChar_toNat c h
  refine ⟨?_, ?_, ?_⟩
  · intro he; subst he; exact absurd hb (by decide)
  · intro he; subst he; exact absurd hb (by decide)
  · simp only [isScanSpace, Bool.or_eq_false_iff, beq_eq_false_iff_ne]
    constructor <;> (intro he; subst he; exact absurd hb (by decide))

theorem digitChar_spec (d : Nat) (h : d < 10) :
    isDigitChar (digitChar d) = true ∧ digitVal (digitChar d) = d := by
  interval_cases d <;> exact ⟨by decide, by decide⟩

/-! ## Decimal rendering round trip -/

theorem natReprAux_irrel (k : Nat) :
    ∀ f1 f2 : Nat, k < f1 → k < f2 → natReprAux f1 k = natReprAux f2 k := by
  induction k using Nat.strong_induction_on with
  | _ k ih =>
    intro f1 f2 h1 h2
    match f1, f2 with
    | g1 + 1, g2 + 1 =>
      by_cases hk : k < 10
      · simp [natReprAux, hk]
      · simp only [natReprAux, if_neg hk]
        have hlt : k / 10 < k := Nat.div_lt_self (by omega) (by omega)
        rw [ih (k / 10) hlt g1 g2 (by omega) (by omega)]

theorem natRepr_eq (n : Nat) :
    natRepr n = if n < 10 then [digitChar n] else natRepr (n / 10) ++ [digitChar (n % 10)] := by
  by_cases hn : n < 10
  · simp [natRepr, natReprAux, hn]
  · have h1 : natReprAux (n + 1) n = natReprAux n (n / 10) ++ [digitChar (n % 10)] := by
      simp only [natReprAux, if_neg hn]
    have hlt : n / 10 < n := Nat.div_lt_self (by omega) (by omega)
    rw [natRepr, h1, natReprAux_irrel (n / 10) n (n / 10 + 1) hlt (by omega), if_neg hn]
    rfl

theorem natRepr_shape (n : Nat) :
    (∀ c ∈ natRepr n, isDigitChar c = true) ∧ natRepr n ≠ [] := by
  induction n using Nat.strong_induction_on with
  | _ n ih =>
    rw [natRepr_eq]
    by_cases h : n < 10
    · rw [if_pos h]
      refine ⟨?_, by simp⟩
      intro c hc
      simp only [List.mem_singleton] at hc
      subst hc
      exact (digitChar_spec n h).1
    · rw [if_neg h]
      have ihd := ih (n / 10) (Nat.div_lt_self (by omega) (by omega))
      refine ⟨?_, by simp⟩
      intro c hc
      rw [List.mem_append] at hc
      rcases hc with hc | hc
      · exact ihd.1 c hc
      · simp only [List.mem_singleton] at hc
        subst hc
        exact (digitChar_spec _ (Nat.mod_lt _ (by omega))).1

theorem digitsVal_natRepr (n : Nat) :
    ∀ acc : Nat, digitsVal acc (natRepr n) = acc * 10 ^ (natRepr n).length + n := by
  induction n using Nat.strong_induction_on with
  | _ n ih =>
    intro acc
    rw [natRepr_eq]
    by_cases h : n < 10
    · rw [if_pos h]
      simp [digitsVal, (digitChar_spec n h).2]
    · rw [if_neg h]
      have ihd := ih (n / 10) (Nat.div_lt_self (by omega) (by omega))
      have hfold : digitsVal acc (natRepr (n / 10) ++ [digitChar (n % 10)]) =
          digitsVal (digitsVal acc (natRepr (n / 10))) [digitChar (n % 10)] := by
        simp [digitsVal, List.foldl_append]
      rw [hfold]
      have hmod : digitVal (digitChar (n % 10)) = n % 10 :=
        (digitChar_spec _ (Nat.mod_lt _ (by omega))).2
      have hlen : (natRepr (n / 10) ++ [digitChar (n % 10)]).length =
          (natRepr (n / 10)).length + 1 := by simp
      rw [hlen, ihd acc]
      simp only [digitsVal, List.foldl_cons, List.foldl_nil, hmod]
      have hpow : acc * 10 ^ ((natRepr (n / 10)).length + 1) =
          acc * 10 ^ (natRepr (n / 10)).length * 10 := by ring
      rw [hpow]
      generalize acc * 10 ^ (natRepr (n / 10)).length = A
      omega

theorem parseDigitsAux_append (t : Str) (ht : headDigit t = false) :
    ∀ (ds : Str) (acc : Nat), (∀ c ∈ ds, isDigitChar c = true) →
      parseDigitsAux acc (ds ++ t) = (digitsVal acc ds, t) := by
  intro ds
  induction ds with
  | nil =>
    intro acc _
    cases t with
    | nil => rfl
    | cons c t2 =>
      simp only [headDigit] at ht
      simp [parseDigitsAux, digitsVal, ht]
  | cons d ds2 ih =>
    intro acc hds
    have hd : isDigitChar d = true := hds d (by simp)
    simp only [List.cons_append, parseDigitsAux, hd, if_pos, List.append_eq]
    rw [ih (acc * 10 + digitVal d) (fun c hc => hds c (by simp [hc]))]
    simp [digitsVal]

theorem parseNat_natRepr (n : Nat) (t : Str) (ht : headDigit t = false) :
    parseNat (natRepr n ++ t) = some (n, t) := by
  obtain ⟨hdig, hne⟩ := natRepr_shape n
  obtain ⟨c, cs, hcons⟩ := List.exists_cons_of_ne_nil hne
  have hc : isDigitChar c = true := hdig c (by rw [hcons]; simp)
  rw [hcons] at hdig ⊢
  simp only [List.cons_append, parseNat, hc, if_pos]
  rw [show (c :: (cs ++ t)) = (c :: cs) ++ t from rfl,
    parseDigitsAux_append t ht (c :: cs) 0 hdig]
  have := digitsVal_natRepr n 0
  rw [hcons] at this
  simp only [this, Nat.zero_mul, Nat.zero_add]

theorem parseInt_natRepr (n : Nat) (t : Str) (ht : headDigit t = false) :
    parseInt (natRepr n ++ t) = some ((n : Int), t) := by
  obtain ⟨hdig, hne⟩ := natRepr_shape n
  obtain ⟨c, cs, hcons⟩ := List.exists_cons_of_ne_nil hne
  have hc : isDigitChar c = true := hdig c (by rw [hcons]; simp)
  obtain ⟨hdash, hplus, _⟩ := digit_char_facts c hc
  have hpn := parseNat_natRepr n t ht
  rw [hcons] at hpn ⊢
  simp only [List.cons_append] at hpn ⊢
  simp [parseInt, hdash, hplus, hpn]

theorem matchFmtLit_append (rest : Str) (hr : rest.dropWhile isScanSpace = rest) :
    ∀ fmt : Str, fmtSane fmt = true → matchFmtLit fmt (fmt ++ rest) = some rest := by
  intro fmt
  induction fmt with
  | nil => intro _; rfl
  | cons c fs ih =>
    intro hf
    simp only [fmtSane, Bool.and_eq_true] at hf
    by_cases hc : c = ' '
    · subst hc
      rw [List.cons_append, matchFmtLit]
      rw [if_pos rfl]
      have hdrop1 : ((' ' :: (fs ++ rest)).dropWhile isScanSpace) =
          (fs ++ rest).dropWhile isScanSpace := by
        rw [List.dropWhile_cons_of_pos (by decide)]
      rw [hdrop1]
      cases fs with
      | nil =>
        simp only [List.nil_append]
        rw [hr]
        rfl
      | cons d fs2 =>
        have hd : isScanSpace d = false := by
          have := hf.1
          rw [if_pos rfl] at this
          simpa using this
        rw [List.cons_append, List.dropWhile_cons_of_neg (by simp [hd])]
        rw [← List.cons_append]
        exact ih hf.2
    · rw [List.cons_append, matchFmtLit, if_neg hc, if_pos rfl]
      exact ih hf.2

theorem isPrefixOf_append_self (p t : Str) : p.isPrefixOf (p ++ t) = true := by
  induction p with
  | nil => simp [List.isPrefixOf]
  | cons c cs ih => simp [List.isPrefixOf, ih]

theorem indexOf_append_self (p t : Str) : indexOf (p ++ t) p = some 0 := by
  have hpre := isPrefixOf_append_self p t
  cases hc : p ++ t with
  | nil =>
    rw [hc] at hpre
    simp only [indexOf, if_pos hpre]
  | cons c s2 =>
    rw [hc] at hpre
    simp only [indexOf, if_pos hpre]

theorem natRepr_dropWhile_scanSpace (n : Nat) (t : Str) :
    (natRepr n ++ t).dropWhile isScanSpace = natRepr n ++ t := by
  obtain ⟨hdig, hne⟩ := natRepr_shape n
  obtain ⟨c, cs, hcons⟩ := List.exists_cons_of_ne_nil hne
  have hc := (digit_char_facts c (hdig c (by rw [hcons]; simp))).2.2
  rw [hcons, List.cons_append, List.dropWhile_cons_of_neg (by simp [hc])]

theorem sscanfYamlLine_canonical (n : Nat) (msg : Str) :
    sscanfYamlLine (mkYamlErr n msg) = some (n : Int) := by
  have hdropid : (natRepr n ++ ':' :: msg).dropWhile isScanSpace =
      natRepr n ++ ':' :: msg := natRepr_dropWhile_scanSpace n (':' :: msg)
  have h1 : matchFmtLit yamlErrFmtPfx (mkYamlErr n msg) = some (natRepr n ++ ':' :: msg) :=
    matchFmtLit_append (natRepr n ++ ':' :: msg) hdropid yamlErrFmtPfx (by decide)
  have h2 : parseInt (natRepr n ++ ':' :: msg) = some ((n : Int), ':' :: msg) :=
    parseInt_natRepr n (':' :: msg) (by show isDigitChar ':' = false; decide)
  simp only [sscanfYamlLine, h1, hdropid, h2]
  rfl

theorem yamlErrPfx_natCast (n : Nat) :
    yamlErrPfx (n : Int) = yamlErrFmtPfx ++ natRepr n ++ [':'] := by
  unfold yamlErrPfx intRepr
  rw [if_neg (by omega : ¬((n : Int) < 0))]
  norm_num

theorem mkYamlErr_split (n : Nat) (msg : Str) :
    mkYamlErr n msg = yamlErrPfx (n : Int) ++ msg := by
  rw [yamlErrPfx_natCast]
  unfold mkYamlErr
  simp

/-- Full characterization of `getYamlErrorContextFromErr` on a
canonically formatted decode error. -/
theorem getYamlErrorContextFromErr_canonical (n : Nat) (msg : Str) (s : Int)
    (lines : List Str) :
    getYamlErrorContextFromErr (mkYamlErr n msg) s lines =
      if s + (n : Int) - 1 < (lines.length : Int) ∧ s + (n : Int) - 1 ≥ 0 then
        ⟨(n : Int), s + (n : Int), trimSpace msg, lines.getD (s + (n : Int) - 1).toNat []⟩
      else zeroYamlErrorContext := by
  have hscan := sscanfYamlLine_canonical n msg
  have hidx : indexOf (mkYamlErr n msg) (yamlErrPfx (n : Int)) = some 0 := by
    rw [mkYamlErr_split]
    exact indexOf_append_self _ _
  have hdropmsg : (mkYamlErr n msg).drop (0 + (yamlErrPfx (n : Int)).length) = msg := by
    rw [mkYamlErr_split, Nat.zero_add, List.drop_left]
  simp only [getYamlErrorContextFromErr, hscan, hidx, hdropmsg]

/-! ## The moveToNextDoc loop -/

theorem moveToNextDocLoop_spec (lines : List Str) (s : Int) (hs : 1 ≤ s) :
    ∀ (k : Nat) (i : Int), ((lines.length : Int) + 1 - i).toNat = k → s ≤ i →
      (∀ j : Int, s < j → j < i → ¬ isSepAt lines j) →
      ∃ r, moveToNextDocLoop lines s i = GoCall.ret r ∧
        ((s < r ∧ isSepAt lines r ∧ ∀ j : Int, s < j → j < r → ¬ isSepAt lines j) ∨
         (r = s ∧ ∀ j : Int, s < j → ¬ isSepAt lines j)) := by
  intro k
  induction k using Nat.strong_induction_on with
  | _ k ih =>
    intro i hk hi hinv
    rw [moveToNextDocLoop]
    by_cases hle : i ≤ (lines.length : Int)
    · rw [dif_pos hle]
      have hidx : goIndex lines (i - 1) = some (lines.getD (i - 1).toNat []) := by
        unfold goIndex
        rw [if_pos ⟨by omega, by omega⟩]
      rw [hidx]
      show ∃ r,
        (if trimSpace (lines.getD (i - 1).toNat []) = ("---").toList ∧ i > s
            then GoCall.ret i else moveToNextDocLoop lines s (i + 1)) = GoCall.ret r ∧
        ((s < r ∧ isSepAt lines r ∧ ∀ j : Int, s < j → j < r → ¬ isSepAt lines j) ∨
         (r = s ∧ ∀ j : Int, s < j → ¬ isSepAt lines j))
      by_cases hsep : trimSpace (lines.getD (i - 1).toNat []) = ("---").toList ∧ i > s
      · rw [if_pos hsep]
        exact ⟨i, rfl, Or.inl ⟨hsep.2, ⟨by omega, hle, hsep.1⟩, hinv⟩⟩
      · rw [if_neg hsep]
        have hinv2 : ∀ j : Int, s < j → j < i + 1 → ¬ isSepAt lines j := by
          intro j hj1 hj2
          by_cases hji : j < i
          · exact hinv j hj1 hji
          · have hji2 : j = i := by omega
            subst hji2
            intro hcontra
            exact hsep ⟨hcontra.2.2, by omega⟩
        exact ih (((lines.length : Int) + 1 - (i + 1)).toNat) (by omega) (i + 1) rfl
          (by omega) hinv2
    · rw [dif_neg hle]
      refine ⟨s, rfl, Or.inr ⟨rfl, ?_⟩⟩
      intro j hj hcontra
      have hjlen : j ≤ (lines.length : Int) := hcontra.2.1
      exact hinv j hj (by omega) hcontra

theorem moveToNextDoc_spec (lines : List Str) (s : Int) (hs : 1 ≤ s) :
    ∃ r, moveToNextDoc lines s = GoCall.ret r ∧
      ((s < r ∧ isSepAt lines r ∧ ∀ j : Int, s < j → j < r → ¬ isSepAt lines j) ∨
       (r = s ∧ ∀ j : Int, s < j → ¬ isSepAt lines j)) :=
  moveToNextDocLoop_spec lines s hs _ s rfl le_rfl (fun _ h1 h2 => absurd (lt_trans h1 h2) (lt_irrefl s))

/-! ## Association-list map facts -/

theorem mapLookup_insert {α : Type} (m : List (String × α)) (k : String) (v : α) :
    mapLookup (mapInsert m k v) k = some v := by
  induction m with
  | nil => simp [mapInsert, mapLookup]
  | cons kv rest ih =>
    obtain ⟨k2, v2⟩ := kv
    by_cases hk : k2 = k
    · simp [mapInsert, mapLookup, hk]
    · simp [mapInsert, mapLookup, hk, ih]

theorem mapLookup_insert_ne {α : Type} (m : List (String × α)) (k k2 : String) (v : α)
    (hne : k2 ≠ k) : mapLookup (mapInsert m k v) k2 = mapLookup m k2 := by
  have hnk : ¬ k = k2 := fun h => hne h.symm
  induction m with
  | nil => simp [mapInsert, mapLookup, hnk]
  | cons kv rest ih =>
    obtain ⟨k3, v3⟩ := kv
    by_cases hk : k3 = k
    · subst hk
      simp [mapInsert, mapLookup, hnk]
    · by_cases hk2 : k3 = k2
      · simp [mapInsert, mapLookup, hk, hk2, hne]
      · simp [mapInsert, mapLookup, hk, hk2, ih]

theorem mapLookup_filter_out {α : Type} (m : List (String × α)) (k : String)
    (p : String × α → Bool) (hp : ∀ v, p (k, v) = false) :
    mapLookup (m.filter p) k = none := by
  induction m with
  | nil => rfl
  | cons kv rest ih =>
    obtain ⟨k2, v2⟩ := kv
    by_cases hpk : p (k2, v2) = true
    · rw [List.filter_cons_of_pos hpk]
      have hne : k2 ≠ k := by
        intro he
        subst he
        rw [hp v2] at hpk
        exact Bool.false_ne_true hpk
      simp [mapLookup, hne, ih]
    · rw [List.filter_cons_of_neg hpk]
      exact ih

/-! ## Claim theorems -/

/-- Claim C1: for every outcome of the underlying name-based
option-setting call (which may panic on an unknown or malformed option
name), `safeApplyTemplateOptions` returns normally — the deferred
recover block converts an in-flight panic into a normal error carrying
the captured fault value — and `RunFunction` reports that error as the
fatal condition `cannot apply template options: ...` instead of
crashing. -/
theorem safeApplyTemplateOptions_contains_faults (optionCall : GoCall Unit) :
    (∃ e, safeApplyTemplateOptions optionCall = GoCall.ret e) ∧
    (∀ v, optionCall = GoCall.panicked v →
      safeApplyTemplateOptions optionCall =
        GoCall.ret (some (("panic occurred while applying template options: ").toList ++ v)) ∧
      runFunctionApplyOptions optionCall =
        GoCall.ret (some (("cannot apply template options: ").toList ++
          (("panic occurred while applying template options: ").toList ++ v)))) := by
  cases optionCall with
  | ret a => exact ⟨⟨none, rfl⟩, fun v hv => by cases hv⟩
  | panicked v => exact ⟨⟨some _, rfl⟩, fun w hw => by cases hw; exact ⟨rfl, rfl⟩⟩

/-- Witness for `safeApplyTemplateOptions_contains_faults` at a concrete
panic value. -/
theorem safeApplyTemplateOptions_contains_faults_witness :
    safeApplyTemplateOptions (GoCall.panicked ("boom").toList) =
      GoCall.ret (some (("panic occurred while applying template options: ").toList ++
        ("boom").toList)) ∧
    runFunctionApplyOptions (GoCall.panicked ("boom").toList) =
      GoCall.ret (some (("cannot apply template options: ").toList ++
        (("panic occurred while applying template options: ").toList ++ ("boom").toList))) :=
  (safeApplyTemplateOptions_contains_faults (GoCall.panicked ("boom").toList)).2
    ("boom").toList rfl

/-- Claim C2: for every request map, if `requiredResources` is present
and `extraResources` absent, `convertToMap` binds `extraResources` to
the `requiredResources` value and keeps `requiredResources` itself; if
`extraResources` is already present the map is returned unchanged. -/
theorem convertToMap_extraResources_compat {α : Type} (m : List (String × α)) :
    (∀ r, mapLookup m "requiredResources" = some r →
      mapLookup m "extraResources" = none →
      mapLookup (convertToMap m) "extraResources" = some r ∧
      mapLookup (convertToMap m) "requiredResources" = some r) ∧
    (∀ v, mapLookup m "extraResources" = some v → convertToMap m = m) := by
  constructor
  · intro r hreq hextra
    unfold convertToMap
    rw [hextra, hreq]
    refine ⟨mapLookup_insert m _ r, ?_⟩
    rw [mapLookup_insert_ne m _ _ r (by decide)]
    exact hreq
  · intro v hextra
    unfold convertToMap
    rw [hextra]

/-- Witness for `convertToMap_extraResources_compat` on a concrete map. -/
theorem convertToMap_extraResources_compat_witness :
    mapLookup (convertToMap [("requiredResources", (5 : Nat))]) "extraResources" = some 5 ∧
    mapLookup (convertToMap [("requiredResources", (5 : Nat))]) "requiredResources" = some 5 :=
  (convertToMap_extraResources_compat [("requiredResources", (5 : Nat))]).1 5
    (by decide) (by decide)

/-- Claim C3: on an error of the canonical form `error converting YAML
to JSON: yaml: line N: msg`, with document-start line `s` and the
absolute line `s + N` within the bounds of the line list,
`getYamlErrorContextFromErr` returns relative line `N`, absolute line
`s + N`, the literal line at that (1-based) absolute position, and the
message tail after the matched prefix trimmed of whitespace. -/
theorem getYamlErrorContextFromErr_matched (n : Nat) (msg : Str) (s : Int)
    (lines : List Str)
    (hhi : s + (n : Int) - 1 < (lines.length : Int)) (hlo : 0 ≤ s + (n : Int) - 1) :
    getYamlErrorContextFromErr (mkYamlErr n msg) s lines =
      ⟨(n : Int), s + (n : Int), trimSpace msg, lines.getD (s + (n : Int) - 1).toNat []⟩ := by
  rw [getYamlErrorContextFromErr_canonical, if_pos ⟨hhi, hlo⟩]

/-- Witness for `getYamlErrorContextFromErr_matched` on the `lines6`
text with a concrete message tail. -/
theorem getYamlErrorContextFromErr_matched_witness :
    ((2 : Int) + ((1 : Nat) : Int) - 1 < (lines6.length : Int)) ∧
    ((0 : Int) ≤ (2 : Int) + ((1 : Nat) : Int) - 1) ∧
    getYamlErrorContextFromErr (mkYamlErr 1 (" boom").toList) 2 lines6 =
      ⟨1, 3, ("boom").toList, ("b: [1,2").toList⟩ :=
  ⟨by decide, by decide,
    getYamlErrorContextFromErr_matched 1 (" boom").toList 2 lines6 (by decide) (by decide)⟩

/-- Claim C4: when an error's textual form does not match the fixed
pattern `error converting YAML to JSON: yaml: line N:` (the embedded
scan call fails), `getYamlErrorContextFromErr` returns the zero-valued
context for every start line and line list; the function is total, so
no fault or error ever reaches its caller. -/
theorem getYamlErrorContextFromErr_unmatched (errStr : Str) (s : Int) (lines : List Str)
    (hscan : sscanfYamlLine errStr = none) :
    getYamlErrorContextFromErr errStr s lines = zeroYamlErrorContext := by
  simp only [getYamlErrorContextFromErr, hscan]

/-- Witness for `getYamlErrorContextFromErr_unmatched` on a concrete
non-matching error string. -/
theorem getYamlErrorContextFromErr_unmatched_witness :
    sscanfYamlLine ("cannot decode").toList = none ∧
    getYamlErrorContextFromErr ("cannot decode").toList 5 lines6 = zeroYamlErrorContext :=
  ⟨by decide, getYamlErrorContextFromErr_unmatched ("cannot decode").toList 5 lines6 (by decide)⟩

/-- Claim C5: for every line list and start line `s ≥ 1`, `moveToNextDoc`
returns normally; the result is the smallest 1-based index `r > s` whose
line trims to the separator `---` when such an index exists (so a
separator at position `s` itself is never selected), and `s` itself when
no separator lies strictly after `s`. -/
theorem moveToNextDoc_advances_to_least_separator (lines : List Str) (s : Int)
    (hs : 1 ≤ s) :
    ∃ r, moveToNextDoc lines s = GoCall.ret r ∧
      ((s < r ∧ isSepAt lines r ∧ ∀ j : Int, s < j → j < r → ¬ isSepAt lines j) ∨
       (r = s ∧ ∀ j : Int, s < j → ¬ isSepAt lines j)) :=
  moveToNextDoc_spec lines s hs

/-- Witness for `moveToNextDoc_advances_to_least_separator` on the
`lines6` text. -/
theorem moveToNextDoc_advances_to_least_separator_witness :
    ∃ r, moveToNextDoc lines6 1 = GoCall.ret r ∧
      ((1 < r ∧ isSepAt lines6 r ∧ ∀ j : Int, 1 < j → j < r → ¬ isSepAt lines6 j) ∨
       (r = 1 ∧ ∀ j : Int, 1 < j → ¬ isSepAt lines6 j)) :=
  moveToNextDoc_advances_to_least_separator lines6 1 (by decide)

theorem moveToNextDoc_lines6 : moveToNextDoc lines6 1 = GoCall.ret 2 := by
  obtain ⟨r, hr, hp⟩ := moveToNextDoc_spec lines6 1 (by norm_num)
  have hsep2 : isSepAt lines6 2 := by decide
  rcases hp with ⟨h1r, hsep, hmin⟩ | ⟨hr1, hall⟩
  · have hle : r ≤ (lines6.length : Int) := hsep.2.1
    have hlen : (lines6.length : Int) = 3 := by decide
    rw [hlen] at hle
    interval_cases r
    · exact hr
    · exact absurd hsep2 (hmin 2 (by norm_num) (by norm_num))
  · exact absurd hsep2 (hall 2 (by norm_num))

/-- Claim C6: for the rendered text `a: 1` / `---` / `b: [1,2` with the
first document starting at line 1, `moveToNextDoc` advances the cursor
to the separator line 2, and for any decode error of the form `error
converting YAML to JSON: yaml: line 1: msg` reported for the second
document, the locator returns absolute line 3 and the literal line
`b: [1,2` as context. -/
theorem yaml_error_location_example (msg : Str) :
    moveToNextDoc lines6 1 = GoCall.ret 2 ∧
    (getYamlErrorContextFromErr (mkYamlErr 1 msg) 2 lines6).AbsLine = 3 ∧
    (getYamlErrorContextFromErr (mkYamlErr 1 msg) 2 lines6).Context = ("b: [1,2").toList := by
  have h := getYamlErrorContextFromErr_canonical 1 msg 2 lines6
  rw [if_pos (by decide :
    (2 : Int) + ((1 : Nat) : Int) - 1 < (lines6.length : Int) ∧
    (2 : Int) + ((1 : Nat) : Int) - 1 ≥ 0)] at h
  refine ⟨moveToNextDoc_lines6, ?_, ?_⟩
  · rw [h]
    show (2 : Int) + ((1 : Nat) : Int) = 3
    norm_num
  · rw [h]
    show lines6.getD ((2 : Int) + ((1 : Nat) : Int) - 1).toNat [] = ("b: [1,2").toList
    decide

/-- Witness for `yaml_error_location_example` at a concrete message. -/
theorem yaml_error_location_example_witness :
    moveToNextDoc lines6 1 = GoCall.ret 2 ∧
    (getYamlErrorContextFromErr (mkYamlErr 1 (" x").toList) 2 lines6).AbsLine = 3 ∧
    (getYamlErrorContextFromErr (mkYamlErr 1 (" x").toList) 2 lines6).Context =
      ("b: [1,2").toList :=
  yaml_error_location_example (" x").toList

/-- Claim C7: a decoded document whose body carries the annotation
`gotemplating.fn.crossplane.io/ready: True` is recorded with readiness
"ready", and both controlling annotation keys are stripped from the
emitted resource body. -/
theorem ready_annotation_applied_and_stripped (dn : String)
    (anns : List (String × String))
    (h : mapLookup anns annotationKeyReady = some "True") :
    (recordDecodedDoc dn anns).readiness = Readiness.ready ∧
    mapLookup (recordDecodedDoc dn anns).annotations annotationKeyReady = none ∧
    mapLookup (recordDecodedDoc dn anns).annotations
      annotationKeyCompositionResourceName = none := by
  refine ⟨?_, ?_, ?_⟩
  · simp [recordDecodedDoc, h]
  · have hb : (recordDecodedDoc dn anns).annotations = anns.filter
        (fun kv =>
          !(kv.1 == annotationKeyCompositionResourceName || kv.1 == annotationKeyReady)) :=
      rfl
    rw [hb]
    exact mapLookup_filter_out _ _ _ (fun v => rfl)
  · have hb : (recordDecodedDoc dn anns).annotations = anns.filter
        (fun kv =>
          !(kv.1 == annotationKeyCompositionResourceName || kv.1 == annotationKeyReady)) :=
      rfl
    rw [hb]
    exact mapLookup_filter_out _ _ _ (fun v => rfl)

/-- Witness for `ready_annotation_applied_and_stripped` on a one-entry
annotation map. -/
theorem ready_annotation_applied_and_stripped_witness :
    (recordDecodedDoc "r1" [(annotationKeyReady, "True")]).readiness = Readiness.ready ∧
    mapLookup (recordDecodedDoc "r1" [(annotationKeyReady, "True")]).annotations
      annotationKeyReady = none ∧
    mapLookup (recordDecodedDoc "r1" [(annotationKeyReady, "True")]).annotations
      annotationKeyCompositionResourceName = none :=
  ready_annotation_applied_and_stripped "r1" [(annotationKeyReady, "True")] (by decide)

/-- Claim C8 (code bug): on the failing rendered text `a: 1` / `---` /
`b: [1,2`, the Diagnostic Locator computes a non-empty context (absolute
line 3, literal line `b: [1,2`), but the decode-failure branch of
`RunFunction` (fn.go lines 111-114) builds its fatal condition from the
wrapped parser error alone — `getYamlErrorContextFromErr` and
`moveToNextDoc` are never invoked anywhere in `RunFunction` — so the
offending line content is absent from the surfaced fatal message. -/
theorem decode_failure_fatal_lacks_context :
    getYamlErrorContextFromErr sampleDecodeErr 2 lines6 =
      ⟨1, 3, ("did not find expected key").toList, ("b: [1,2").toList⟩ ∧
    decodeFailureFatalMessage sampleDecodeErr =
      ("cannot decode manifest: error converting YAML to JSON: " ++
        "yaml: line 1: did not find expected key").toList ∧
    goContains (decodeFailureFatalMessage sampleDecodeErr) (("b: [1,2").toList) = false := by
  refine ⟨by decide, by decide, by decide⟩

/-- Claim C9: the `moveToNextDoc` loop reads `lines[i-1]` before testing
`i > startLine`, so a call with `startLine = 0` always reads index -1
and aborts with the bounds-check panic, for every line list (the empty
one included); with `startLine ≥ 1` every access stays within bounds
and the function returns normally. -/
theorem moveToNextDoc_index_safety :
    (∀ lines : List Str,
      moveToNextDoc lines 0 =
        GoCall.panicked ("runtime error: index out of range").toList) ∧
    (∀ (lines : List Str) (s : Int), 1 ≤ s →
      ∃ r, moveToNextDoc lines s = GoCall.ret r) := by
  constructor
  · intro lines
    rw [moveToNextDoc, moveToNextDocLoop,
      dif_pos (by omega : (0 : Int) ≤ (lines.length : Int))]
    have hidx : goIndex lines ((0 : Int) - 1) = none := by
      unfold goIndex
      rw [if_neg (by omega)]
    rw [hidx]
  · intro lines s hs
    obtain ⟨r, hr, _⟩ := moveToNextDoc_spec lines s hs
    exact ⟨r, hr⟩

/-- Witness for `moveToNextDoc_index_safety`: the panic on the empty
list at start 0, and the normal return at start 1. -/
theorem moveToNextDoc_index_safety_witness :
    moveToNextDoc [] 0 = GoCall.panicked ("runtime error: index out of range").toList ∧
    ∃ r, moveToNextDoc ([] : List Str) 1 = GoCall.ret r :=
  ⟨moveToNextDoc_index_safety.1 [], moveToNextDoc_index_safety.2 [] 1 (by norm_num)⟩

/-- Claim C10: when the error's textual form matches the scan pattern
but the computed absolute line `startLine + relLine` falls outside the
bounds of the line list, `getYamlErrorContextFromErr` returns the fully
zero-valued context — no partial result carrying the parsed relative
line, absolute line or message. -/
theorem getYamlErrorContextFromErr_out_of_bounds (errStr : Str) (s rl : Int)
    (lines : List Str)
    (hscan : sscanfYamlLine errStr = some rl)
    (hout : ¬(s + rl - 1 < (lines.length : Int) ∧ s + rl - 1 ≥ 0)) :
    getYamlErrorContextFromErr errStr s lines = zeroYamlErrorContext := by
  simp only [getYamlErrorContextFromErr, hscan]
  rw [if_neg hout]

/-- Witness for `getYamlErrorContextFromErr_out_of_bounds`: a matching
error whose absolute line exceeds the (empty) line list. -/
theorem getYamlErrorContextFromErr_out_of_bounds_witness :
    sscanfYamlLine ("error converting YAML to JSON: yaml: line 7: oops").toList = some 7 ∧
    getYamlErrorContextFromErr
      ("error converting YAML to JSON: yaml: line 7: oops").toList 0 [] =
      zeroYamlErrorContext :=
  ⟨by decide,
    getYamlErrorContextFromErr_out_of_bounds
      ("error converting YAML to JSON: yaml: line 7: oops").toList 0 7 []
      (by decide) (by decide)⟩
